import Mathlib

/-!
Verification development for the PMO projects dashboard pipeline
(`betaapp.py`): CSV ingestion with required-column validation, fixed-format
date parsing, derivation of the planned-end date and the overdue flag,
categorical filtering, value counting, the timeline slice, and CSV export
of the filtered table.

The wall-clock date read by the source at pipeline-run time is passed here
as an explicit `today : Date` parameter, so every function is pure.
-/

/-- A calendar date, ordered chronologically (year, then month, then day). -/
structure Date where
  year : Nat
  month : Nat
  day : Nat
deriving DecidableEq, Repr

/-- Chronological strict order on dates, as timestamp comparison `<`. -/
def dateLt (a b : Date) : Bool :=
  decide (a.year < b.year ∨ (a.year = b.year ∧
    (a.month < b.month ∨ (a.month = b.month ∧ a.day < b.day))))

/-- Chronological non-strict order on dates. -/
def dateLe (a b : Date) : Bool :=
  dateLt a b || (a.year == b.year && a.month == b.month && a.day == b.day)

/-- ASCII decimal digit test on a character. -/
def isDigitChar (c : Char) : Bool :=
  48 ≤ c.toNat && c.toNat ≤ 57

/-- Decimal value of a digit string, most significant digit first. -/
def charsToNat (cs : List Char) : Nat :=
  cs.foldl (fun n c => n * 10 + (c.toNat - 48)) 0

/-- Split a character list on the dash separator, as the date format does. -/
def splitOnDash : List Char → List (List Char)
  | [] => [[]]
  | c :: cs =>
    if c = '-' then [] :: splitOnDash cs
    else
      match splitOnDash cs with
      | [] => [[c]]
      | g :: gs => (c :: g) :: gs

/-- Abbreviated month names recognised by the `%b` directive, lowercased. -/
def monthTable : List (List Char × Nat) :=
  [("jan".toList, 1), ("feb".toList, 2), ("mar".toList, 3), ("apr".toList, 4),
   ("may".toList, 5), ("jun".toList, 6), ("jul".toList, 7), ("aug".toList, 8),
   ("sep".toList, 9), ("oct".toList, 10), ("nov".toList, 11), ("dec".toList, 12)]

/-- Month number of an abbreviated month name, case-insensitively. -/
def monthNum (cs : List Char) : Option Nat :=
  monthTable.lookup (cs.map Char.toLower)

/-- Gregorian leap-year rule. -/
def isLeap (y : Nat) : Bool :=
  (y % 4 == 0 && y % 100 != 0) || y % 400 == 0

/-- Number of days in a month, accounting for leap years. -/
def daysInMonth (y m : Nat) : Nat :=
  if m = 2 then (if isLeap y then 29 else 28)
  else if m = 4 ∨ m = 6 ∨ m = 9 ∨ m = 11 then 30
  else 31

/-- Parse a character list under the fixed `%d-%b-%Y` pattern: a one- or
two-digit day, an abbreviated month name, a four-digit year, separated by
dashes, with the day validated against the calendar; any mismatch yields
`none` (the source coerces parse errors to null). -/
def parseDateChars (cs : List Char) : Option Date :=
  match splitOnDash cs with
  | [ds, ms, ys] =>
    if decide (1 ≤ ds.length) && decide (ds.length ≤ 2) && ds.all isDigitChar
        && decide (ys.length = 4) && ys.all isDigitChar then
      match monthNum ms with
      | some m =>
        let d := charsToNat ds
        let y := charsToNat ys
        if decide (1 ≤ y) && decide (1 ≤ d) && decide (d ≤ daysInMonth y m) then
          some ⟨y, m, d⟩
        else none
      | none => none
    else none
  | _ => none

/-- Parse one date cell; unparseable cells become `none`, never an error. -/
def parseDate (s : String) : Option Date :=
  parseDateChars s.toList

/-- One CSV data row: cells keyed by column header; an empty cell is `none`. -/
abbrev RawRow := List (String × Option String)

/-- A parsed CSV: the header row and the data rows keyed by header. -/
structure Csv where
  headers : List String
  rows : List RawRow
deriving DecidableEq, Repr

/-- The cell of a row under a column header (`none` when absent or empty). -/
def cellOf (r : RawRow) (c : String) : Option String :=
  (List.lookup c r).join

/-- The thirteen required column headers, in canonical order. -/
def REQUIRED_COLS : List String :=
  ["ID", "Name", "Project Vendor", "Project Priority", "Business Owner",
   "Project Initiation Date", "Target Completion Date", "Revised Timeline",
   "Objective", "Project Current Status", "Project Category", "Project Manager",
   "Project Custodian"]

/-- The validation failure raised when required columns are absent; it
carries the list of missing column names. -/
structure SchemaError where
  missing : List String
deriving DecidableEq, Repr

/-- One project record: the thirteen ingested columns plus the two derived
fields `planned_end` and `overdue`. -/
structure Project where
  id : Option String
  name : Option String
  vendor : Option String
  priority : Option String
  business_owner : Option String
  initiation_date : Option Date
  target_completion_date : Option Date
  revised_timeline : Option Date
  objective : Option String
  current_status : Option String
  category : Option String
  manager : Option String
  custodian : Option String
  planned_end : Option Date
  overdue : Bool
deriving DecidableEq, Repr

/-- Membership of a nullable status in the exempt list, as `isin` computes
it: a null status is not in the list, so the test is false on null. -/
def statusExempt (st : Option String) : Bool :=
  match st with
  | some s => s == "Live" || s == "Withdraw"
  | none => false

/-- Comparison of a nullable date with `today`; false on null, as a null
timestamp compares false. -/
def optLtToday (a : Option Date) (today : Date) : Bool :=
  match a with
  | some d => dateLt d today
  | none => false

/-- Build one `Project` record from a raw row: parse the three date cells,
derive `planned_end` as the revised timeline filled with the target
completion date, and derive `overdue` as in the source: planned end
non-null, strictly before `today`, and status not in `{Live, Withdraw}`. -/
def recordOf (today : Date) (r : RawRow) : Project :=
  let init := (cellOf r "Project Initiation Date").bind parseDate
  let target := (cellOf r "Target Completion Date").bind parseDate
  let revised := (cellOf r "Revised Timeline").bind parseDate
  let pend := match revised with
    | some d => some d
    | none => target
  let st := cellOf r "Project Current Status"
  { id := cellOf r "ID"
    name := cellOf r "Name"
    vendor := cellOf r "Project Vendor"
    priority := cellOf r "Project Priority"
    business_owner := cellOf r "Business Owner"
    initiation_date := init
    target_completion_date := target
    revised_timeline := revised
    objective := cellOf r "Objective"
    current_status := st
    category := cellOf r "Project Category"
    manager := cellOf r "Project Manager"
    custodian := cellOf r "Project Custodian"
    planned_end := pend
    overdue := pend.isSome && optLtToday pend today && !(statusExempt st) }

/-- The required columns absent from a CSV, in canonical order, exactly as
the source computes the `missing` list. -/
def missingOf (csv : Csv) : List String :=
  REQUIRED_COLS.filter (fun c => !(csv.headers.contains c))

/-- `load_data`: validate the required columns, then build one record per
data row in input order; fails wholesale with a `SchemaError` when any
required column is missing. -/
def load_data (today : Date) (csv : Csv) : Except SchemaError (List Project) :=
  if missingOf csv = [] then
    .ok (csv.rows.map (recordOf today))
  else
    .error ⟨missingOf csv⟩

/-- The six sidebar multiselect selections; an empty list means the
corresponding filter is not applied. -/
structure Selections where
  status_sel : List String
  priority_sel : List String
  category_sel : List String
  owner_sel : List String
  manager_sel : List String
  vendor_sel : List String

/-- Membership of a nullable cell value in a selection list, as `isin`
computes it: a null value is never a member. -/
def optMem (v : Option String) (sel : List String) : Bool :=
  match v with
  | some s => sel.contains s
  | none => false

/-- One conditional filtering step: when the selection is empty the table
passes through unchanged, otherwise rows whose value is a member are kept. -/
def filterStep (get : Project → Option String) (sel : List String)
    (t : List Project) : List Project :=
  if sel.isEmpty then t else t.filter (fun p => optMem (get p) sel)

/-- The filtered table: the six conditional filters applied in source
order (status, priority, category, owner, manager, vendor). -/
def filtered (df : List Project) (s : Selections) : List Project :=
  filterStep (fun p => p.vendor) s.vendor_sel
    (filterStep (fun p => p.manager) s.manager_sel
      (filterStep (fun p => p.business_owner) s.owner_sel
        (filterStep (fun p => p.category) s.category_sel
          (filterStep (fun p => p.priority) s.priority_sel
            (filterStep (fun p => p.current_status) s.status_sel df)))))

/-- The spec's per-field retention condition: an empty selection imposes no
constraint, otherwise the (non-null) value must be a member of it. -/
def fieldOk (sel : List String) (v : Option String) : Bool :=
  sel.isEmpty || optMem v sel

/-- The spec's retention predicate for `applyFilters`: the conjunction of
the six per-field conditions. -/
def rowMatches (s : Selections) (p : Project) : Bool :=
  fieldOk s.status_sel p.current_status && fieldOk s.priority_sel p.priority
    && fieldOk s.category_sel p.category && fieldOk s.owner_sel p.business_owner
    && fieldOk s.manager_sel p.manager && fieldOk s.vendor_sel p.vendor

/-- Stable insertion of `x` into `l`: `x` is placed before the first
element `y` with `le x y`, hence before every later tie. -/
def insertBy (le : α → α → Bool) (x : α) : List α → List α
  | [] => [x]
  | y :: ys => if le x y then x :: y :: ys else y :: insertBy le x ys

/-- Stable sort by the boolean comparison `le` (insertion sort), modelling
the library's stable sorts. -/
def sortBy (le : α → α → Bool) : List α → List α
  | [] => []
  | x :: xs => insertBy le x (sortBy le xs)

/-- The distinct values of a list in order of first occurrence, as the
counting hash table enumerates its keys. -/
def firstOccurrences : List String → List String
  | [] => []
  | v :: rest => v :: (firstOccurrences rest).filter (fun w => w != v)

/-- Descending-count comparison on (value, count) pairs. -/
def countGe (a b : String × Nat) : Bool :=
  decide (b.2 ≤ a.2)

/-- `value_counts` over a list of (non-null) cell values: each distinct
value paired with its multiplicity, in first-occurrence order, then stably
sorted by descending count. -/
def valueCounts (vals : List String) : List (String × Nat) :=
  sortBy countGe ((firstOccurrences vals).map (fun v => (v, vals.count v)))

/-- The non-null values of one categorical field across a table, in row
order (`value_counts` drops nulls). -/
def fieldValues (get : Project → Option String) (t : List Project) : List String :=
  t.filterMap get

/-- The status distribution: `value_counts` of the status column. -/
def status_counts (t : List Project) : List (String × Nat) :=
  valueCounts (fieldValues (fun p => p.current_status) t)

/-- The top-ten manager distribution: `value_counts` of the manager column
truncated with `head(10)`. -/
def mgr_counts (t : List Project) : List (String × Nat) :=
  (valueCounts (fieldValues (fun p => p.manager) t)).take 10

/-- Non-strict comparison of nullable initiation dates, nulls last, as
`sort_values` orders timestamps. -/
def optDateLe (a b : Option Date) : Bool :=
  match a, b with
  | some x, some y => dateLe x y
  | some _, none => true
  | none, some _ => false
  | none, none => true

/-- Comparison of two projects by initiation date. -/
def initLe (a b : Project) : Bool :=
  optDateLe a.initiation_date b.initiation_date

/-- `timeline_df`: the rows having both an initiation date and a planned
end, truncated with `head(show_n)` before any sorting, as in the source. -/
def timeline_df (t : List Project) (show_n : Nat) : List Project :=
  (t.filter (fun p => p.initiation_date.isSome && p.planned_end.isSome)).take show_n

/-- The sequence the timeline chart receives: `timeline_df` sorted
ascending by initiation date (the `sort_values` at the chart call). -/
def timeline_sorted (t : List Project) (show_n : Nat) : List Project :=
  sortBy initLe (timeline_df t show_n)

/-- Modelled from the spec: `timelineSlice` as the spec words it — filter
to rows with both dates, sort ascending by initiation date, and only then
truncate to the first `limit` rows. For comparison with `timeline_sorted`. -/
def timelineSliceSpec (t : List Project) (limit : Nat) : List Project :=
  (sortBy initLe
    (t.filter (fun p => p.initiation_date.isSome && p.planned_end.isSome))).take limit

/-- One decimal digit character. -/
def digitChar (n : Nat) : Char :=
  if n = 0 then '0' else if n = 1 then '1' else if n = 2 then '2'
  else if n = 3 then '3' else if n = 4 then '4' else if n = 5 then '5'
  else if n = 6 then '6' else if n = 7 then '7' else if n = 8 then '8' else '9'

/-- Decimal digits of a number, most significant first, via bounded
division (the bound `n + 1` always suffices). -/
def natDigitsGo : Nat → Nat → List Char → List Char
  | 0, _, acc => acc
  | fuel + 1, n, acc =>
    if n < 10 then digitChar n :: acc
    else natDigitsGo fuel (n / 10) (digitChar (n % 10) :: acc)

/-- Decimal rendering of a number as characters. -/
def natDigits (n : Nat) : List Char :=
  natDigitsGo (n + 1) n []

/-- Zero-pad a decimal rendering to at least two characters. -/
def pad2 (n : Nat) : List Char :=
  List.replicate (2 - (natDigits n).length) '0' ++ natDigits n

/-- Zero-pad a decimal rendering to at least four characters. -/
def pad4 (n : Nat) : List Char :=
  List.replicate (4 - (natDigits n).length) '0' ++ natDigits n

/-- The ISO `YYYY-MM-DD` rendering a date receives in the CSV export. -/
def dateToIso (d : Date) : String :=
  String.mk (pad4 d.year ++ '-' :: (pad2 d.month ++ '-' :: pad2 d.day))

/-- A nullable date as an exported CSV cell: null stays empty, a date is
rendered in ISO form. -/
def dateCell (d : Option Date) : Option String :=
  d.map dateToIso

/-- The exported CSV row of one project, restricted to the thirteen
canonical columns in canonical order. -/
def rowOf (p : Project) : RawRow :=
  [("ID", p.id), ("Name", p.name), ("Project Vendor", p.vendor),
   ("Project Priority", p.priority), ("Business Owner", p.business_owner),
   ("Project Initiation Date", dateCell p.initiation_date),
   ("Target Completion Date", dateCell p.target_completion_date),
   ("Revised Timeline", dateCell p.revised_timeline),
   ("Objective", p.objective), ("Project Current Status", p.current_status),
   ("Project Category", p.category), ("Project Manager", p.manager),
   ("Project Custodian", p.custodian)]

/-- `to_csv_bytes` on the filtered table restricted to the canonical
columns: the CSV with the thirteen canonical headers and one row per
project. -/
def to_csv_bytes (t : List Project) : Csv :=
  ⟨REQUIRED_COLS, t.map rowOf⟩

/-- The record a project becomes after the export/re-ingest round trip:
every date field is lost (the ISO rendering does not match the ingest
pattern), so the planned end is null and the overdue flag false; the
string fields survive. -/
def reingested (p : Project) : Project :=
  { p with initiation_date := none, target_completion_date := none,
           revised_timeline := none, planned_end := none, overdue := false }

/-- First-occurrence index of a value in a list (length when absent). -/
def firstIndexOf (v : String) : List String → Nat
  | [] => 0
  | w :: rest => if w = v then 0 else firstIndexOf v rest + 1

/-- A reference date used by the concrete examples: 1 Jan 2025. -/
def d0 : Date := ⟨2025, 1, 1⟩

/-- A row whose status cell is empty and whose target completion date lies
in the past of `d0`. -/
def c1row : RawRow :=
  [("ID", some "1"), ("Target Completion Date", some "01-Jan-2020")]

/-- A one-row CSV with all required headers and an empty status cell. -/
def c1csv : Csv := ⟨REQUIRED_COLS, [c1row]⟩

/-- A row with every interesting cell populated. -/
def rowA : RawRow :=
  [("ID", some "1"), ("Name", some "Alpha"),
   ("Project Current Status", some "Live"),
   ("Project Initiation Date", some "05-Jan-2019"),
   ("Target Completion Date", some "01-Jan-2020"),
   ("Revised Timeline", some "02-Feb-2021")]

/-- A row with a target completion date but no revised timeline. -/
def rowB : RawRow :=
  [("ID", some "2"), ("Target Completion Date", some "01-Jan-2020"),
   ("Project Initiation Date", some "garbage")]

/-- A row with no date cells at all. -/
def rowC : RawRow := [("ID", some "3")]

/-- A well-formed CSV with all required headers and three rows. -/
def okCsv : Csv := ⟨REQUIRED_COLS, [rowA, rowB, rowC]⟩

/-- A CSV missing most of the required headers. -/
def missCsv : Csv := ⟨["ID", "Name"], [] ⟩

/-- A project with a late initiation date, for the timeline examples. -/
def pA : Project :=
  { id := some "A", name := none, vendor := none, priority := none,
    business_owner := none, initiation_date := some ⟨2025, 1, 1⟩,
    target_completion_date := none, revised_timeline := none, objective := none,
    current_status := none, category := none, manager := none, custodian := none,
    planned_end := some ⟨2026, 1, 1⟩, overdue := false }

/-- A project with an earlier initiation date than `pA`. -/
def pB : Project :=
  { pA with id := some "B", initiation_date := some ⟨2020, 1, 1⟩ }

/-- A project with an exported date value, for the round-trip examples. -/
def exportP : Project :=
  { pA with id := some "E", name := some "Exported",
            target_completion_date := some ⟨2020, 1, 1⟩,
            planned_end := some ⟨2020, 1, 1⟩, overdue := true }

/-- A live project managed by M1. -/
def projLive : Project :=
  { id := some "1", name := none, vendor := none, priority := none,
    business_owner := none, initiation_date := none, target_completion_date := none,
    revised_timeline := none, objective := none, current_status := some "Live",
    category := none, manager := some "M1", custodian := none,
    planned_end := none, overdue := false }

/-- An on-hold project managed by M2. -/
def projHold : Project :=
  { projLive with id := some "2", current_status := some "On Hold", manager := some "M2" }

/-- A second live project managed by M1. -/
def projLive2 : Project :=
  { projLive with id := some "3" }

/-- A three-row table with statuses Live, On Hold, Live. -/
def tbl7 : List Project := [projLive, projHold, projLive2]

theorem insertBy_mem {α : Type} {le : α → α → Bool} (x a : α) (l : List α) :
    a ∈ insertBy le x l ↔ a = x ∨ a ∈ l := by
  induction l with
  | nil => simp [insertBy]
  | cons y ys ih =>
    rw [insertBy]
    split
    · simp
    · simp only [List.mem_cons, ih]
      tauto

theorem insertBy_perm {α : Type} (le : α → α → Bool) (x : α) (l : List α) :
    (insertBy le x l).Perm (x :: l) := by
  induction l with
  | nil => simp [insertBy]
  | cons y ys ih =>
    rw [insertBy]
    split
    · exact List.Perm.refl _
    · exact (ih.cons y).trans (List.Perm.swap x y ys)

theorem sortBy_perm {α : Type} (le : α → α → Bool) (l : List α) :
    (sortBy le l).Perm l := by
  induction l with
  | nil => exact List.Perm.refl _
  | cons x xs ih => exact (insertBy_perm le x (sortBy le xs)).trans (ih.cons x)

theorem insertBy_pairwise {α : Type} {le : α → α → Bool} {Q : α → α → Prop}
    (htot : ∀ a b, le a b = true ∨ le b a = true)
    (htr : ∀ a b c, le a b = true → le b c = true → le a c = true)
    {x : α} {l : List α} (hx : ∀ y ∈ l, Q x y)
    (hl : l.Pairwise (fun a b => le a b = true ∧ (le b a = true → Q a b))) :
    (insertBy le x l).Pairwise (fun a b => le a b = true ∧ (le b a = true → Q a b)) := by
  induction l with
  | nil => simp [insertBy]
  | cons y ys ih =>
    rcases List.pairwise_cons.mp hl with ⟨hy, hys⟩
    rw [insertBy]
    split
    case isTrue h =>
      refine List.Pairwise.cons ?_ hl
      intro z hz
      rcases List.mem_cons.mp hz with rfl | hz2
      · exact ⟨h, fun _ => hx z (List.mem_cons_self _ _)⟩
      · exact ⟨htr x y z h (hy z hz2).1, fun _ => hx z (List.mem_cons_of_mem _ hz2)⟩
    case isFalse h =>
      refine List.Pairwise.cons ?_ (ih (fun z hz => hx z (List.mem_cons_of_mem _ hz)) hys)
      intro z hz
      rcases (insertBy_mem x z ys).mp hz with rfl | hz2
      · refine ⟨?_, fun hxy => absurd hxy h⟩
        rcases htot z y with h1 | h1
        · exact absurd h1 h
        · exact h1
      · exact hy z hz2

theorem pairwise_trivial {α : Type} (l : List α) : l.Pairwise (fun _ _ => True) := by
  induction l with
  | nil => exact List.Pairwise.nil
  | cons x xs ih => exact List.Pairwise.cons (fun _ _ => trivial) ih

theorem sortBy_pairwise {α : Type} {le : α → α → Bool} {Q : α → α → Prop}
    (htot : ∀ a b, le a b = true ∨ le b a = true)
    (htr : ∀ a b c, le a b = true → le b c = true → le a c = true)
    {l : List α} (hl : l.Pairwise Q) :
    (sortBy le l).Pairwise (fun a b => le a b = true ∧ (le b a = true → Q a b)) := by
  induction l with
  | nil => exact List.Pairwise.nil
  | cons x xs ih =>
    rcases List.pairwise_cons.mp hl with ⟨hx, hxs⟩
    exact insertBy_pairwise htot htr
      (fun y hy => hx y ((sortBy_perm le xs).mem_iff.mp hy)) (ih hxs)

theorem sortBy_sorted {α : Type} {le : α → α → Bool}
    (htot : ∀ a b, le a b = true ∨ le b a = true)
    (htr : ∀ a b c, le a b = true → le b c = true → le a c = true)
    (l : List α) : (sortBy le l).Pairwise (fun a b => le a b = true) :=
  (sortBy_pairwise htot htr (pairwise_trivial l)).imp (fun h => h.1)

theorem dateLe_total (a b : Date) : dateLe a b = true ∨ dateLe b a = true := by
  simp only [dateLe, dateLt, Bool.or_eq_true, Bool.and_eq_true, decide_eq_true_eq,
    beq_iff_eq]
  omega

theorem dateLe_trans (a b c : Date) (h1 : dateLe a b = true) (h2 : dateLe b c = true) :
    dateLe a c = true := by
  simp only [dateLe, dateLt, Bool.or_eq_true, Bool.and_eq_true, decide_eq_true_eq,
    beq_iff_eq] at h1 h2 ⊢
  omega

theorem optDateLe_total (a b : Option Date) : optDateLe a b = true ∨ optDateLe b a = true := by
  unfold optDateLe
  rcases a with _ | x
  · rcases b with _ | y <;> simp
  · rcases b with _ | y
    · simp
    · exact dateLe_total x y

theorem optDateLe_trans (a b c : Option Date) (h1 : optDateLe a b = true)
    (h2 : optDateLe b c = true) : optDateLe a c = true := by
  unfold optDateLe at h1 h2 ⊢
  rcases a with _ | x
  all_goals rcases b with _ | y
  all_goals rcases c with _ | z
  all_goals simp_all
  exact dateLe_trans x y z h1 h2

theorem initLe_total (a b : Project) : initLe a b = true ∨ initLe b a = true :=
  optDateLe_total a.initiation_date b.initiation_date

theorem initLe_trans (a b c : Project) (h1 : initLe a b = true) (h2 : initLe b c = true) :
    initLe a c = true :=
  optDateLe_trans a.initiation_date b.initiation_date c.initiation_date h1 h2

theorem countGe_total (a b : String × Nat) : countGe a b = true ∨ countGe b a = true := by
  simp only [countGe, decide_eq_true_eq]
  omega

theorem countGe_trans (a b c : String × Nat) (h1 : countGe a b = true)
    (h2 : countGe b c = true) : countGe a c = true := by
  simp only [countGe, decide_eq_true_eq] at h1 h2 ⊢
  omega

theorem firstOccurrences_mem (v : String) (l : List String) :
    v ∈ firstOccurrences l ↔ v ∈ l := by
  induction l with
  | nil => simp [firstOccurrences]
  | cons u rest ih =>
    simp only [firstOccurrences, List.mem_cons, List.mem_filter, ih, bne_iff_ne]
    by_cases h : v = u
    · simp [h]
    · simp [h]

theorem firstOccurrences_pairwise (l : List String) :
    (firstOccurrences l).Pairwise (fun u w => firstIndexOf u l < firstIndexOf w l) := by
  induction l with
  | nil => exact List.Pairwise.nil
  | cons v rest ih =>
    rw [firstOccurrences]
    refine List.Pairwise.cons ?_ ?_
    · intro w hw
      have hne : w ≠ v := by
        simpa [bne_iff_ne] using (List.mem_filter.mp hw).2
      simp [firstIndexOf, hne.symm]
    · refine (List.Pairwise.filter _ ih).imp_of_mem ?_
      intro a b ha hb hab
      have ha2 : a ≠ v := by
        simpa [bne_iff_ne] using (List.mem_filter.mp ha).2
      have hb2 : b ≠ v := by
        simpa [bne_iff_ne] using (List.mem_filter.mp hb).2
      simp [firstIndexOf, ha2.symm, hb2.symm]
      omega

theorem valueCounts_pairwise (vals : List String) :
    (valueCounts vals).Pairwise (fun a b =>
      b.2 < a.2 ∨ (a.2 = b.2 ∧ firstIndexOf a.1 vals < firstIndexOf b.1 vals)) := by
  have hQ : ((firstOccurrences vals).map (fun v => (v, vals.count v))).Pairwise
      (fun a b => firstIndexOf a.1 vals < firstIndexOf b.1 vals) := by
    rw [List.pairwise_map]
    exact firstOccurrences_pairwise vals
  refine (sortBy_pairwise countGe_total countGe_trans hQ).imp ?_
  intro a b hab
  rcases hab with ⟨h1, h2⟩
  simp only [countGe, decide_eq_true_eq] at h1 h2
  rcases Nat.lt_or_ge b.2 a.2 with h3 | h3
  · exact Or.inl h3
  · exact Or.inr ⟨Nat.le_antisymm h3 h1, h2 h3⟩

theorem valueCounts_mem (vals : List String) (pr : String × Nat)
    (h : pr ∈ valueCounts vals) : pr.1 ∈ vals ∧ pr.2 = vals.count pr.1 := by
  have h2 := (sortBy_perm countGe _).mem_iff.mp h
  rcases List.mem_map.mp h2 with ⟨v, hv, rfl⟩
  exact ⟨(firstOccurrences_mem v vals).mp hv, rfl⟩

theorem valueCounts_complete (vals : List String) (v : String) (hv : v ∈ vals) :
    (v, vals.count v) ∈ valueCounts vals := by
  apply (sortBy_perm countGe _).mem_iff.mpr
  exact List.mem_map.mpr ⟨v, (firstOccurrences_mem v vals).mpr hv, rfl⟩

theorem filterStep_eq (get : Project → Option String) (sel : List String)
    (t : List Project) : filterStep get sel t = t.filter (fun p => fieldOk sel (get p)) := by
  by_cases h : sel.isEmpty
  · simp [filterStep, fieldOk, h, List.filter_true]
  · simp only [Bool.not_eq_true] at h
    simp [filterStep, fieldOk, h]

/-- C3: `applyFilters` retains exactly the rows whose (non-null) value lies
in every non-empty selection set — a conjunction across the six fields,
disjunction within each set, nulls never matching — and it preserves the
input order: the filtered table is literally `List.filter` of that
conjunction. -/
theorem applyFilters_spec (df : List Project) (s : Selections) :
    filtered df s = df.filter (fun p => rowMatches s p) := by
  unfold filtered
  rw [filterStep_eq, filterStep_eq, filterStep_eq, filterStep_eq, filterStep_eq,
    filterStep_eq]
  rw [List.filter_filter, List.filter_filter, List.filter_filter, List.filter_filter,
    List.filter_filter]
  apply List.filter_congr
  intro p _
  unfold rowMatches
  generalize fieldOk s.status_sel p.current_status = b1
  generalize fieldOk s.priority_sel p.priority = b2
  generalize fieldOk s.category_sel p.category = b3
  generalize fieldOk s.owner_sel p.business_owner = b4
  generalize fieldOk s.manager_sel p.manager = b5
  generalize fieldOk s.vendor_sel p.vendor = b6
  cases b1 <;> cases b2 <;> cases b3 <;> cases b4 <;> cases b5 <;> cases b6 <;> rfl

/-- C5, counterexample: with two dated rows in the order (2025, 2020) and
limit 1, the source truncates before sorting and shows the 2025 row, while
the claim's filter-sort-truncate pipeline would show the 2020 row. -/
theorem timelineSlice_counterexample :
    timeline_sorted [pA, pB] 1 = [pA] ∧ timelineSliceSpec [pA, pB] 1 = [pB] ∧
    timeline_sorted [pA, pB] 1 ≠ timelineSliceSpec [pA, pB] 1 := by
  decide

/-- C5, amended: the timeline sequence truncates the dated rows to the
first `limit` in table order and only then sorts ascending by initiation
date; it never exceeds `limit` rows, never contains a row missing either
date, and is ascending by initiation date. -/
theorem timelineSlice_props (t : List Project) (limit : Nat) :
    (timeline_sorted t limit).length ≤ limit ∧
    (∀ p ∈ timeline_sorted t limit,
      p.initiation_date.isSome = true ∧ p.planned_end.isSome = true) ∧
    (timeline_sorted t limit).Pairwise (fun a b => initLe a b = true) ∧
    (timeline_sorted t limit).Perm (timeline_df t limit) := by
  have hperm : (timeline_sorted t limit).Perm (timeline_df t limit) :=
    sortBy_perm initLe (timeline_df t limit)
  refine ⟨?_, ?_, sortBy_sorted initLe_total initLe_trans _, hperm⟩
  · rw [hperm.length_eq]
    exact List.length_take_le limit _
  · intro p hp
    have hp2 := hperm.mem_iff.mp hp
    have hp3 := List.mem_filter.mp (List.mem_of_mem_take hp2)
    simpa [Bool.and_eq_true] using hp3.2

/-- Witness for the amended C5 at a concrete table and limit. -/
theorem timelineSlice_props_witness :
    pA.initiation_date.isSome = true ∧ pA.planned_end.isSome = true :=
  (timelineSlice_props [pA, pB] 1).2.1 pA (by decide)

/-- C7: `value_counts` output is sorted by strictly descending count with
ties in first-encounter order of the value in the column, each entry is a
value of the column paired with its multiplicity, every column value
appears, and the top-ten manager ranking is the full ranking truncated to
its first ten entries. -/
theorem countBy_topN_spec (t : List Project) :
    ((status_counts t).Pairwise (fun a b => b.2 < a.2 ∨ (a.2 = b.2 ∧
        firstIndexOf a.1 (fieldValues (fun p => p.current_status) t)
          < firstIndexOf b.1 (fieldValues (fun p => p.current_status) t)))) ∧
    (∀ pr ∈ status_counts t, pr.1 ∈ fieldValues (fun p => p.current_status) t ∧
        pr.2 = (fieldValues (fun p => p.current_status) t).count pr.1) ∧
    (∀ v ∈ fieldValues (fun p => p.current_status) t,
        (v, (fieldValues (fun p => p.current_status) t).count v) ∈ status_counts t) ∧
    mgr_counts t = (valueCounts (fieldValues (fun p => p.manager) t)).take 10 :=
  ⟨valueCounts_pairwise _, fun pr h => valueCounts_mem _ pr h,
   fun v hv => valueCounts_complete _ v hv, rfl⟩

/-- Witness for C7 at the concrete table with statuses Live, On Hold, Live. -/
theorem countBy_topN_spec_witness :
    ("Live", 2).1 ∈ fieldValues (fun p => p.current_status) tbl7 ∧
    ("Live", 2).2 = (fieldValues (fun p => p.current_status) tbl7).count ("Live", 2).1 :=
  (countBy_topN_spec tbl7).2.1 ("Live", 2) (by decide)

theorem load_ok_eq {today : Date} {csv : Csv} {t : List Project}
    (h : load_data today csv = .ok t) : t = csv.rows.map (recordOf today) := by
  unfold load_data at h
  split at h
  · exact (Except.ok.inj h).symm
  · exact absurd h (by simp)

theorem load_data_of_missing_nil {today : Date} {csv : Csv} (h : missingOf csv = []) :
    load_data today csv = .ok (csv.rows.map (recordOf today)) := by
  unfold load_data
  rw [if_pos h]

theorem load_data_of_missing_ne {today : Date} {csv : Csv} (h : missingOf csv ≠ []) :
    load_data today csv = .error ⟨missingOf csv⟩ := by
  unfold load_data
  rw [if_neg h]

theorem missingOf_mem (csv : Csv) (c : String) :
    c ∈ missingOf csv ↔ c ∈ REQUIRED_COLS ∧ c ∉ csv.headers := by
  simp [missingOf, List.mem_filter]

theorem missingOf_nil_iff (csv : Csv) :
    missingOf csv = [] ↔ ∀ c ∈ REQUIRED_COLS, c ∈ csv.headers := by
  simp [missingOf, List.filter_eq_nil_iff]

theorem recordOf_planned_end (today : Date) (r : RawRow) :
    (recordOf today r).planned_end =
      (match (recordOf today r).revised_timeline with
        | some d => some d
        | none => (recordOf today r).target_completion_date) := rfl

theorem recordOf_overdue (today : Date) (r : RawRow) :
    (recordOf today r).overdue = ((recordOf today r).planned_end.isSome
      && optLtToday (recordOf today r).planned_end today
      && !(statusExempt (recordOf today r).current_status)) := rfl

theorem overdue_iff (pe : Option Date) (st : Option String) (today : Date) :
    (pe.isSome && optLtToday pe today && !(statusExempt st)) = true ↔
    (∃ e, pe = some e ∧ dateLt e today = true ∧
      st ≠ some "Live" ∧ st ≠ some "Withdraw") := by
  rcases pe with _ | e
  · simp [optLtToday]
  · rcases st with _ | s
    · simp [optLtToday, statusExempt]
    · simp only [Option.isSome_some, optLtToday, statusExempt, Bool.true_and,
        Bool.and_eq_true, Bool.not_eq_true', Bool.or_eq_false_iff, beq_eq_false_iff_ne,
        ne_eq, Option.some.injEq]
      constructor
      · rintro ⟨h1, h2, h3⟩
        exact ⟨e, rfl, h1, h2, h3⟩
      · rintro ⟨e2, he2, h1, h2, h3⟩
        cases he2
        exact ⟨h1, h2, h3⟩

/-- C1, counterexample: a loaded row with an empty status cell and a past
planned end has `overdue = true` — the claim's clause that a null
`current_status` forces `overdue` to be false does not hold of the code,
because `isin` is false on null and the negation makes it count as
non-exempt. -/
theorem overdue_null_status_counterexample :
    load_data d0 c1csv = .ok [recordOf d0 c1row] ∧
    (recordOf d0 c1row).current_status = none ∧
    (recordOf d0 c1row).planned_end = some ⟨2020, 1, 1⟩ ∧
    dateLt ⟨2020, 1, 1⟩ d0 = true ∧
    (recordOf d0 c1row).overdue = true := by
  refine ⟨?_, rfl, rfl, rfl, rfl⟩
  exact load_data_of_missing_nil (by decide)

/-- C1, amended: in every loaded row, `overdue` is true iff `planned_end`
is non-null, strictly before `today`, and `current_status` is neither
`some "Live"` nor `some "Withdraw"`; a null status does not exempt a row,
so a row with null status and a past planned end is overdue. -/
theorem overdue_spec (today : Date) (csv : Csv) (t : List Project)
    (h : load_data today csv = .ok t) : ∀ p ∈ t,
    (p.overdue = true ↔ ∃ e, p.planned_end = some e ∧ dateLt e today = true ∧
      p.current_status ≠ some "Live" ∧ p.current_status ≠ some "Withdraw") := by
  intro p hp
  rcases List.mem_map.mp (load_ok_eq h ▸ hp) with ⟨r, _, rfl⟩
  rw [recordOf_overdue]
  exact overdue_iff _ _ today

/-- Witness for the amended C1 at the concrete null-status row. -/
theorem overdue_spec_witness :
    (recordOf d0 c1row).overdue = true ↔
    ∃ e, (recordOf d0 c1row).planned_end = some e ∧ dateLt e d0 = true ∧
      (recordOf d0 c1row).current_status ≠ some "Live" ∧
      (recordOf d0 c1row).current_status ≠ some "Withdraw" :=
  overdue_spec d0 c1csv (c1csv.rows.map (recordOf d0))
    (load_data_of_missing_nil (by decide)) (recordOf d0 c1row)
    (List.mem_singleton.mpr rfl)

/-- C2: in every loaded row, `planned_end` equals `revised_timeline` when
the latter is non-null, and equals `target_completion_date` otherwise. -/
theorem planned_end_spec (today : Date) (csv : Csv) (t : List Project)
    (h : load_data today csv = .ok t) : ∀ p ∈ t,
    (∀ e, p.revised_timeline = some e → p.planned_end = some e) ∧
    (p.revised_timeline = none → p.planned_end = p.target_completion_date) := by
  intro p hp
  rcases List.mem_map.mp (load_ok_eq h ▸ hp) with ⟨r, _, rfl⟩
  constructor
  · intro e he
    rw [recordOf_planned_end, he]
  · intro he
    rw [recordOf_planned_end, he]

/-- Witness for C2 at a concrete loaded row with a revised timeline. -/
theorem planned_end_spec_witness :
    (recordOf d0 rowA).planned_end = some ⟨2021, 2, 2⟩ ∧
    (recordOf d0 rowC).planned_end = (recordOf d0 rowC).target_completion_date := by
  have h := planned_end_spec d0 okCsv (okCsv.rows.map (recordOf d0))
    (load_data_of_missing_nil (by decide))
  constructor
  · exact (h (recordOf d0 rowA) (by decide)).1 ⟨2021, 2, 2⟩ rfl
  · exact (h (recordOf d0 rowC) (by decide)).2 rfl

/-- C10: in every loaded row, `overdue` is a definite boolean, and it is
false whenever `planned_end` is null. -/
theorem overdue_total_spec (today : Date) (csv : Csv) (t : List Project)
    (h : load_data today csv = .ok t) : ∀ p ∈ t,
    (p.overdue = true ∨ p.overdue = false) ∧
    (p.planned_end = none → p.overdue = false) := by
  intro p hp
  rcases List.mem_map.mp (load_ok_eq h ▸ hp) with ⟨r, _, rfl⟩
  refine ⟨Bool.eq_false_or_eq_true _, ?_⟩
  intro hpe
  rw [recordOf_overdue, hpe]
  rfl

/-- Witness for C10 at a concrete loaded row with no dates at all. -/
theorem overdue_total_spec_witness : (recordOf d0 rowC).overdue = false :=
  (overdue_total_spec d0 okCsv (okCsv.rows.map (recordOf d0))
    (load_data_of_missing_nil (by decide)) (recordOf d0 rowC) (by decide)).2 rfl

/-- C4: loading succeeds exactly when every required column header is
present; otherwise it fails with a `SchemaError` whose `missing` list is
exactly the set of absent required columns, in canonical order, and no
table is produced. -/
theorem schema_validation (today : Date) (csv : Csv) :
    ((∀ c ∈ REQUIRED_COLS, c ∈ csv.headers) →
      load_data today csv = .ok (csv.rows.map (recordOf today))) ∧
    ((∃ c ∈ REQUIRED_COLS, c ∉ csv.headers) →
      load_data today csv = .error ⟨missingOf csv⟩ ∧ missingOf csv ≠ []) ∧
    (∀ e, load_data today csv = .error e →
      ∀ c, c ∈ e.missing ↔ (c ∈ REQUIRED_COLS ∧ c ∉ csv.headers)) := by
  refine ⟨?_, ?_, ?_⟩
  · intro h
    exact load_data_of_missing_nil ((missingOf_nil_iff csv).mpr h)
  · rintro ⟨c, hc, hn⟩
    have hm : c ∈ missingOf csv := (missingOf_mem csv c).mpr ⟨hc, hn⟩
    have hne : missingOf csv ≠ [] := by
      intro h0
      rw [h0] at hm
      exact absurd hm (List.not_mem_nil c)
    exact ⟨load_data_of_missing_ne hne, hne⟩
  · intro e he c
    unfold load_data at he
    split at he
    · exact absurd he (by simp)
    · cases Except.error.inj he
      exact missingOf_mem csv c

/-- Witness for C4: a complete CSV loads, an incomplete one fails with the
exact missing list. -/
theorem schema_validation_witness :
    load_data d0 okCsv = .ok (okCsv.rows.map (recordOf d0)) ∧
    (load_data d0 missCsv = .error ⟨missingOf missCsv⟩ ∧ missingOf missCsv ≠ []) ∧
    ("Project Vendor" ∈ (SchemaError.mk (missingOf missCsv)).missing ↔
      ("Project Vendor" ∈ REQUIRED_COLS ∧ "Project Vendor" ∉ missCsv.headers)) := by
  refine ⟨(schema_validation d0 okCsv).1 (by decide), ?_, ?_⟩
  · exact (schema_validation d0 missCsv).2.1 ⟨"Project Vendor", by decide, by decide⟩
  · exact (schema_validation d0 missCsv).2.2 ⟨missingOf missCsv⟩
      ((schema_validation d0 missCsv).2.1 ⟨"Project Vendor", by decide, by decide⟩).1
      "Project Vendor"

/-- C8: with all required headers present, loading always succeeds, and a
date cell that is absent, empty, or fails the `DD-Mon-YYYY` parse leaves
the corresponding field null rather than failing. -/
theorem date_coercion (today : Date) (csv : Csv) (h : missingOf csv = []) :
    load_data today csv = .ok (csv.rows.map (recordOf today)) ∧
    parseDate "" = none ∧
    (∀ r : RawRow,
      (cellOf r "Project Initiation Date" = none →
        (recordOf today r).initiation_date = none) ∧
      (∀ s, cellOf r "Project Initiation Date" = some s → parseDate s = none →
        (recordOf today r).initiation_date = none) ∧
      (cellOf r "Target Completion Date" = none →
        (recordOf today r).target_completion_date = none) ∧
      (∀ s, cellOf r "Target Completion Date" = some s → parseDate s = none →
        (recordOf today r).target_completion_date = none) ∧
      (cellOf r "Revised Timeline" = none →
        (recordOf today r).revised_timeline = none) ∧
      (∀ s, cellOf r "Revised Timeline" = some s → parseDate s = none →
        (recordOf today r).revised_timeline = none)) := by
  refine ⟨load_data_of_missing_nil h, rfl, ?_⟩
  intro r
  have h1 : (recordOf today r).initiation_date
      = (cellOf r "Project Initiation Date").bind parseDate := rfl
  have h2 : (recordOf today r).target_completion_date
      = (cellOf r "Target Completion Date").bind parseDate := rfl
  have h3 : (recordOf today r).revised_timeline
      = (cellOf r "Revised Timeline").bind parseDate := rfl
  refine ⟨fun hc => by rw [h1, hc]; rfl, fun s hc hp => by rw [h1, hc]; simpa using hp,
    fun hc => by rw [h2, hc]; rfl, fun s hc hp => by rw [h2, hc]; simpa using hp,
    fun hc => by rw [h3, hc]; rfl, fun s hc hp => by rw [h3, hc]; simpa using hp⟩

/-- Witness for C8: the unparseable initiation cell of a concrete row
becomes null while the load still succeeds. -/
theorem date_coercion_witness :
    load_data d0 okCsv = .ok (okCsv.rows.map (recordOf d0)) ∧
    (recordOf d0 rowB).initiation_date = none := by
  have h := date_coercion d0 okCsv (by decide)
  exact ⟨h.1, (h.2.2 rowB).2.1 "garbage" rfl (by decide)⟩

/-- C9: with all required headers present, the loaded table has exactly one
record per input row, in input order: the lengths agree and the record at
every index is the record of the input row at that index. -/
theorem row_preservation (today : Date) (csv : Csv) (h : missingOf csv = []) :
    ∃ t, load_data today csv = .ok t ∧ t.length = csv.rows.length ∧
      ∀ i : Nat, t[i]? = (csv.rows[i]?).map (recordOf today) := by
  refine ⟨csv.rows.map (recordOf today), load_data_of_missing_nil h,
    List.length_map _ _, ?_⟩
  intro i
  exact List.getElem?_map _ _ _

/-- Witness for C9 at the concrete three-row CSV. -/
theorem row_preservation_witness :
    ∃ t, load_data d0 okCsv = .ok t ∧ t.length = okCsv.rows.length ∧
      ∀ i : Nat, t[i]? = (okCsv.rows[i]?).map (recordOf d0) :=
  row_preservation d0 okCsv (by decide)

theorem digitChar_ne_dash (n : Nat) : digitChar n ≠ '-' := by
  unfold digitChar
  repeat' split
  all_goals decide

theorem natDigitsGo_ne_dash (fuel n : Nat) (acc : List Char)
    (hacc : ∀ c ∈ acc, c ≠ '-') : ∀ c ∈ natDigitsGo fuel n acc, c ≠ '-' := by
  induction fuel generalizing n acc with
  | zero => exact hacc
  | succ fuel ih =>
    rw [natDigitsGo]
    split
    · intro c hc
      rcases List.mem_cons.mp hc with rfl | hc2
      · exact digitChar_ne_dash n
      · exact hacc c hc2
    · refine ih (n / 10) _ ?_
      intro c hc
      rcases List.mem_cons.mp hc with rfl | hc2
      · exact digitChar_ne_dash (n % 10)
      · exact hacc c hc2

theorem natDigits_ne_dash (n : Nat) : ∀ c ∈ natDigits n, c ≠ '-' :=
  natDigitsGo_ne_dash (n + 1) n [] (by intro c hc; cases hc)

theorem pad2_ne_dash (n : Nat) : ∀ c ∈ pad2 n, c ≠ '-' := by
  intro c hc
  rcases List.mem_append.mp hc with h | h
  · rw [List.eq_of_mem_replicate h]
    decide
  · exact natDigits_ne_dash n c h

theorem pad4_ne_dash (n : Nat) : ∀ c ∈ pad4 n, c ≠ '-' := by
  intro c hc
  rcases List.mem_append.mp hc with h | h
  · rw [List.eq_of_mem_replicate h]
    decide
  · exact natDigits_ne_dash n c h

theorem pad4_length (n : Nat) : 4 ≤ (pad4 n).length := by
  rw [pad4, List.length_append, List.length_replicate]
  omega

theorem splitOnDash_no_dash (xs : List Char) (h : ∀ c ∈ xs, c ≠ '-') :
    splitOnDash xs = [xs] := by
  induction xs with
  | nil => rfl
  | cons x xs ih =>
    rw [splitOnDash]
    rw [if_neg (h x (List.mem_cons_self _ _))]
    rw [ih (fun c hc => h c (List.mem_cons_of_mem _ hc))]

theorem splitOnDash_append (xs rest : List Char) (h : ∀ c ∈ xs, c ≠ '-') :
    splitOnDash (xs ++ '-' :: rest) = xs :: splitOnDash rest := by
  induction xs with
  | nil =>
    rw [List.nil_append, splitOnDash, if_pos rfl]
  | cons x xs ih =>
    rw [List.cons_append, splitOnDash]
    rw [if_neg (h x (List.mem_cons_self _ _))]
    rw [ih (fun c hc => h c (List.mem_cons_of_mem _ hc))]

theorem parseDate_dateToIso (d : Date) : parseDate (dateToIso d) = none := by
  have hsplit : splitOnDash (pad4 d.year ++ '-' :: (pad2 d.month ++ '-' :: pad2 d.day))
      = [pad4 d.year, pad2 d.month, pad2 d.day] := by
    rw [splitOnDash_append _ _ (pad4_ne_dash d.year)]
    rw [splitOnDash_append _ _ (pad2_ne_dash d.month)]
    rw [splitOnDash_no_dash _ (pad2_ne_dash d.day)]
  have hlen : ¬((pad4 d.year).length ≤ 2) := by
    have := pad4_length d.year
    omega
  show parseDateChars (pad4 d.year ++ '-' :: (pad2 d.month ++ '-' :: pad2 d.day)) = none
  rw [parseDateChars, hsplit]
  simp [hlen]

theorem dateCell_reparse (d : Option Date) : (dateCell d).bind parseDate = none := by
  rcases d with _ | e
  · rfl
  · show parseDate (dateToIso e) = none
    exact parseDate_dateToIso e

theorem recordOf_rowOf (today : Date) (p : Project) :
    recordOf today (rowOf p) = reingested p := by
  simp [recordOf, rowOf, reingested, cellOf, dateCell_reparse, List.lookup]

/-- C6, counterexample: exporting a table whose row has a (non-null)
target completion date and re-ingesting it does not reproduce the row
values even modulo date formatting — the date value is lost entirely,
because the export renders dates as ISO `YYYY-MM-DD`, which the strict
`DD-Mon-YYYY` ingest pattern rejects and coerces to null. -/
theorem roundtrip_counterexample :
    load_data d0 (to_csv_bytes [exportP]) = .ok [reingested exportP] ∧
    exportP.target_completion_date = some ⟨2020, 1, 1⟩ ∧
    (reingested exportP).target_completion_date = none ∧
    reingested exportP ≠ exportP := by
  refine ⟨?_, rfl, rfl, by decide⟩
  have hm : missingOf (to_csv_bytes [exportP]) = [] := by decide
  rw [load_data_of_missing_nil hm]
  show Except.ok [recordOf d0 (rowOf exportP)] = _
  rw [recordOf_rowOf]

/-- C6, amended: re-ingesting the exported filtered table always succeeds
and yields the same rows in order with every non-date column preserved,
but with all three date fields null (the ISO-rendered dates fail the
`DD-Mon-YYYY` parse), hence a null `planned_end` and a false `overdue`. -/
theorem roundtrip_spec (today : Date) (t : List Project) :
    load_data today (to_csv_bytes t) = .ok (t.map reingested) := by
  have hm : missingOf (to_csv_bytes t) = [] := by
    show REQUIRED_COLS.filter (fun c => !(REQUIRED_COLS.contains c)) = []
    decide
  rw [load_data_of_missing_nil hm]
  have h2 : (to_csv_bytes t).rows.map (recordOf today) = t.map reingested := by
    show (t.map rowOf).map (recordOf today) = t.map reingested
    rw [List.map_map]
    simp [Function.comp, recordOf_rowOf]
  rw [h2]
